import Mathlib

/-!
Verification of the CSS selector builder in `src/05-objects-tasks.js`.

The builder accumulates typed selector fragments in an insertion-ordered
map (a JS `Map`), validates the canonical fragment order after every
mutating call, and renders a string.  We embed the `Builder` class
shallowly: the `Map` becomes an association list preserving insertion
order, the `combineStorage` array becomes a list of tokens (a token is a
plain string or an array of strings, matching what the JS spread of
`selectors.values()` pushes), and a method that can `throw` returns a
result carrying the error kind together with the state of the builder at
the moment of the throw (JS mutates in place, so a caught throw leaves
the partially mutated object visible).
-/

set_option autoImplicit false

/-- The six fragment kinds, the keys of the `selectors` map. -/
inductive Kind where
  | element
  | id
  | «class»
  | «attribute»
  | pseudoClass
  | pseudoElement
deriving DecidableEq, Repr, Fintype

/-- A value stored in the `selectors` map: singleton kinds store a string,
repeatable kinds store an array of strings. -/
inductive Value where
  | single (s : String)
  | multi (ss : List String)
deriving DecidableEq, Repr

/-- A token of `combineStorage`: the JS array holds strings and arrays of
strings (the spread of `selectors.values()` pushes each value as is). -/
inductive Tok where
  | str (s : String)
  | arr (ss : List String)
deriving DecidableEq, Repr

/-- The `Map.prototype.has`. -/
def mapHas (m : List (Kind × Value)) (k : Kind) : Bool :=
  match m with
  | [] => false
  | (k2, _) :: rest => k2 = k || mapHas rest k

/-- The `Map.prototype.get` (as an option). -/
def mapLookup (m : List (Kind × Value)) (k : Kind) : Option Value :=
  match m with
  | [] => none
  | (k2, v) :: rest => if k2 = k then some v else mapLookup rest k

/-- The `Map.prototype.set`: update in place when the key is present (keeping
its position), otherwise append at the end. -/
def mapSet (m : List (Kind × Value)) (k : Kind) (v : Value) : List (Kind × Value) :=
  match m with
  | [] => [(k, v)]
  | (k2, v2) :: rest =>
    if k2 = k then (k, v) :: rest else (k2, v2) :: mapSet rest k v

/-- The `this.selectors.get(k).push(s)`: append `s` to the array stored at `k`
(no effect when the key is absent or holds a plain string). -/
def mapPush (m : List (Kind × Value)) (k : Kind) (s : String) : List (Kind × Value) :=
  match m with
  | [] => []
  | (k2, v2) :: rest =>
    if k2 = k then
      (k2, match v2 with
           | .single x => Value.single x
           | .multi ss => Value.multi (ss ++ [s])) :: rest
    else (k2, v2) :: mapPush rest k s

/-- The mutable builder state: the insertion-ordered `selectors` map and
the `combineStorage` array. -/
structure Builder where
  selectors : List (Kind × Value)
  combineStorage : List Tok
deriving DecidableEq, Repr

/-- The `new Builder()`. -/
def newBuilder : Builder := Builder.mk [] []

/-- The `this.defaultOrder`. -/
def defaultOrder : List Kind :=
  [.element, .id, .«class», .«attribute», .pseudoClass, .pseudoElement]

/-- JS `Array.prototype.indexOf`: index of the first occurrence, `-1` when
absent. -/
def jsIndexOf (l : List Kind) (k : Kind) : Int :=
  match l with
  | [] => -1
  | x :: rest =>
    if x = k then 0
    else
      let r := jsIndexOf rest k
      if r = -1 then -1 else r + 1

/-- The callback loop of `keys.some((selector, i) => i > currentOrder.indexOf(selector))`,
with `i` the running index. -/
def someExceeds (keys : List Kind) (co : List Kind) (i : Nat) : Bool :=
  match keys with
  | [] => false
  | k :: rest => decide ((i : Int) > jsIndexOf co k) || someExceeds rest co (i + 1)

/-- The insertion-order key sequence `[...this.selectors.keys()]`. -/
def Builder.keys (b : Builder) : List Kind := b.selectors.map Prod.fst

/-- The `Builder.prototype.isValidOrder`. -/
def Builder.isValidOrder (b : Builder) : Bool :=
  let keys := b.keys
  let currentOrder := defaultOrder.filter (fun s => keys.contains s)
  let validOrder := someExceeds keys currentOrder 0
  !validOrder

/-- The two error kinds the builder throws. -/
inductive ErrKind where
  | occur
  | order
deriving DecidableEq, Repr

/-- Result of a mutating builder method: either the updated builder, or an
error kind together with the builder state at the moment of the throw. -/
inductive MRes where
  | ok (b : Builder)
  | err (e : ErrKind) (b : Builder)
deriving DecidableEq, Repr

/-- Continue a chain after a possibly throwing call (a JS throw aborts the
rest of the chain). -/
def MRes.bind (r : MRes) (f : Builder → MRes) : MRes :=
  match r with
  | .ok b => f b
  | .err e b => .err e b

/-- The error kind of a result, when it is an error. -/
def MRes.errKind : MRes → Option ErrKind
  | .ok _ => none
  | .err e _ => some e

/-- The builder state after the call, also in the error case. -/
def MRes.state : MRes → Builder
  | .ok b => b
  | .err _ b => b

/-- Whether the call returned normally. -/
def MRes.isOk : MRes → Bool
  | .ok _ => true
  | .err _ _ => false

/-- The `Builder.prototype.element`. -/
def Builder.element (b : Builder) (v : String) : MRes :=
  if mapHas b.selectors .element then .err .occur b
  else
    let b2 := Builder.mk (mapSet b.selectors .element (.single v)) b.combineStorage
    if b2.isValidOrder then .ok b2 else .err .order b2

/-- The `Builder.prototype.id`. -/
def Builder.id (b : Builder) (v : String) : MRes :=
  if mapHas b.selectors .id then .err .occur b
  else
    let b2 := Builder.mk (mapSet b.selectors .id (.single ("#" ++ v))) b.combineStorage
    if b2.isValidOrder then .ok b2 else .err .order b2

/-- The `Builder.prototype.class`. -/
def Builder.«class» (b : Builder) (v : String) : MRes :=
  let sels0 :=
    if mapHas b.selectors .«class» then b.selectors
    else mapSet b.selectors .«class» (.multi [])
  let b2 := Builder.mk (mapPush sels0 .«class» ("." ++ v)) b.combineStorage
  if b2.isValidOrder then .ok b2 else .err .order b2

/-- The `Builder.prototype.attr`. -/
def Builder.attr (b : Builder) (v : String) : MRes :=
  let sels0 :=
    if mapHas b.selectors .«attribute» then b.selectors
    else mapSet b.selectors .«attribute» (.multi [])
  let b2 := Builder.mk (mapPush sels0 .«attribute» ("[" ++ v ++ "]")) b.combineStorage
  if b2.isValidOrder then .ok b2 else .err .order b2

/-- The `Builder.prototype.pseudoClass`. -/
def Builder.pseudoClass (b : Builder) (v : String) : MRes :=
  let sels0 :=
    if mapHas b.selectors .pseudoClass then b.selectors
    else mapSet b.selectors .pseudoClass (.multi [])
  let b2 := Builder.mk (mapPush sels0 .pseudoClass (":" ++ v)) b.combineStorage
  if b2.isValidOrder then .ok b2 else .err .order b2

/-- The `Builder.prototype.pseudoElement`. -/
def Builder.pseudoElement (b : Builder) (v : String) : MRes :=
  if mapHas b.selectors .pseudoElement then .err .occur b
  else
    let b2 := Builder.mk (mapSet b.selectors .pseudoElement (.single ("::" ++ v))) b.combineStorage
    if b2.isValidOrder then .ok b2 else .err .order b2

/-- The spread of a `selectors` value into `combineStorage`. -/
def Value.toTok : Value → Tok
  | .single s => .str s
  | .multi ss => .arr ss

/-- The `[...sel.selectors.values()]` as combine-storage tokens. -/
def selectorToks (b : Builder) : List Tok :=
  b.selectors.map (fun p => p.2.toTok)

/-- The `Builder.prototype.combine`: pushes the values of `selector1`, the
spaced combinator, the values of `selector2` and the combine storage of
`selector2` onto this combine storage. -/
def Builder.combine (b : Builder) (selector1 : Builder) (combinator : String)
    (selector2 : Builder) : Builder :=
  Builder.mk b.selectors
    (b.combineStorage ++ selectorToks selector1 ++ [.str (" " ++ combinator ++ " ")]
      ++ selectorToks selector2 ++ selector2.combineStorage)

/-- One level of `Array.prototype.flat` on a token. -/
def Tok.flat : Tok → List String
  | .str s => [s]
  | .arr ss => ss

/-- One level of `Array.prototype.flat` on a selectors value. -/
def Value.flat : Value → List String
  | .single s => [s]
  | .multi ss => ss

/-- The `Builder.prototype.stringify`. -/
def Builder.stringify (b : Builder) : String :=
  if b.combineStorage.length > 0 then
    String.join (b.combineStorage.flatMap Tok.flat)
  else
    String.join ((b.selectors.map Prod.snd).flatMap Value.flat)

/-- The `stringify` translated statement by statement with the state threaded
through: the body only reads `this`, so the returned state is the input
state unchanged. -/
def Builder.stringifyS (b : Builder) : String × Builder :=
  (b.stringify, b)

namespace cssSelectorBuilder

/-- Facade `cssSelectorBuilder.element`. -/
def element (v : String) : MRes := Builder.element newBuilder v

/-- Facade `cssSelectorBuilder.id`. -/
def id (v : String) : MRes := Builder.id newBuilder v

/-- Facade `cssSelectorBuilder.class`. -/
def «class» (v : String) : MRes := Builder.«class» newBuilder v

/-- Facade `cssSelectorBuilder.attr`. -/
def attr (v : String) : MRes := Builder.attr newBuilder v

/-- Facade `cssSelectorBuilder.pseudoClass`. -/
def pseudoClass (v : String) : MRes := Builder.pseudoClass newBuilder v

/-- Facade `cssSelectorBuilder.pseudoElement`. -/
def pseudoElement (v : String) : MRes := Builder.pseudoElement newBuilder v

/-- Facade `cssSelectorBuilder.combine`. -/
def combine (selector1 : Builder) (combinator : String) (selector2 : Builder) : Builder :=
  Builder.combine newBuilder selector1 combinator selector2

end cssSelectorBuilder

/-- The filtered canonical order `currentOrder` computed by `isValidOrder`. -/
def currentOrderOf (keys : List Kind) : List Kind :=
  defaultOrder.filter (fun s => keys.contains s)

/-- The shared shape of the singleton methods `element`, `id`,
`pseudoElement`: duplicate check, store the formatted value, order check. -/
def setMethod (b : Builder) (k : Kind) (s : String) : MRes :=
  if mapHas b.selectors k then .err .occur b
  else
    let b2 := Builder.mk (mapSet b.selectors k (.single s)) b.combineStorage
    if b2.isValidOrder then .ok b2 else .err .order b2

/-- The shared shape of the repeatable methods `class`, `attr`,
`pseudoClass`: create the array if absent, push the formatted value,
order check. -/
def pushMethod (b : Builder) (k : Kind) (s : String) : MRes :=
  let sels0 := if mapHas b.selectors k then b.selectors else mapSet b.selectors k (.multi [])
  let b2 := Builder.mk (mapPush sels0 k s) b.combineStorage
  if b2.isValidOrder then .ok b2 else .err .order b2

/-- The array stored for a repeatable kind (`[]` when the kind is absent). -/
def fragList (b : Builder) (k : Kind) : List String :=
  match mapLookup b.selectors k with
  | some (.multi ss) => ss
  | _ => []

/-- A repeatable-kind entry is well typed: absent, or an array of strings
(every state reachable through the API satisfies this). -/
def multiOk (m : List (Kind × Value)) (k : Kind) : Prop :=
  mapLookup m k = none ∨ ∃ ss, mapLookup m k = some (Value.multi ss)

/-- A run of consecutive `class` calls chained onto a prior result. -/
def classChain (r : MRes) (vs : List String) : MRes :=
  vs.foldl (fun r2 v => r2.bind (fun bb => bb.«class» v)) r

/-! ### Properties of the order validation -/

lemma contains_true_iff (l : List Kind) (k : Kind) : l.contains k = true ↔ k ∈ l := by
  induction l with
  | nil => simp [List.contains]
  | cons x rest ih => simp [List.contains] at ih ⊢

lemma mem_defaultOrder (k : Kind) : k ∈ defaultOrder := by
  cases k <;> simp [defaultOrder]

lemma nodup_defaultOrder : defaultOrder.Nodup := by decide

lemma nodup_currentOrder (keys : List Kind) : (currentOrderOf keys).Nodup :=
  nodup_defaultOrder.filter _

lemma mem_currentOrder {keys : List Kind} {k : Kind} (hk : k ∈ keys) :
    k ∈ currentOrderOf keys := by
  refine List.mem_filter.mpr ⟨mem_defaultOrder k, ?_⟩
  exact (contains_true_iff keys k).mpr hk

lemma currentOrder_subset {keys : List Kind} {k : Kind} (hk : k ∈ currentOrderOf keys) :
    k ∈ keys := by
  have := (List.mem_filter.mp hk).2
  exact (contains_true_iff keys k).mp this

lemma jsIndexOf_eq_indexOf {l : List Kind} {k : Kind} (h : k ∈ l) :
    jsIndexOf l k = (l.indexOf k : Int) := by
  induction l with
  | nil => cases h
  | cons x rest ih =>
    by_cases hx : x = k
    · subst hx
      simp [jsIndexOf, List.indexOf_cons_self]
    · have hk : k ∈ rest := by
        rcases List.mem_cons.mp h with h1 | h1
        · exact absurd h1.symm hx
        · exact h1
      have h1 : jsIndexOf rest k = (rest.indexOf k : Int) := ih hk
      have h2 : ¬ jsIndexOf rest k = -1 := by
        rw [h1]; omega
      simp [jsIndexOf, hx, h1, h2, List.indexOf_cons_ne _ hx]

lemma someExceeds_false_iff (keys co : List Kind) (i : Nat) :
    someExceeds keys co i = false ↔
      ∀ j (hj : j < keys.length), ((i + j : Nat) : Int) ≤ jsIndexOf co (keys.get ⟨j, hj⟩) := by
  induction keys generalizing i with
  | nil => simp [someExceeds]
  | cons k rest ih =>
    rw [someExceeds]
    simp only [Bool.or_eq_false_iff, decide_eq_false_iff_not, not_lt, ih (i + 1)]
    constructor
    · rintro ⟨h0, hrest⟩ j hj
      cases j with
      | zero => simpa using h0
      | succ j =>
        have hj2 : j < rest.length := by simpa using hj
        have h1 := hrest j hj2
        calc ((i + (j + 1) : Nat) : Int) = ((i + 1 + j : Nat) : Int) := by push_cast; ring
          _ ≤ jsIndexOf co (rest.get ⟨j, hj2⟩) := h1
          _ = jsIndexOf co ((k :: rest).get ⟨j + 1, hj⟩) := rfl
    · intro h
      constructor
      · simpa using h 0 (by simp)
      · intro j hj
        have hj2 : j + 1 < (k :: rest).length := by simpa using Nat.succ_lt_succ hj
        have h1 := h (j + 1) hj2
        calc ((i + 1 + j : Nat) : Int) = ((i + (j + 1) : Nat) : Int) := by push_cast; ring
          _ ≤ jsIndexOf co ((k :: rest).get ⟨j + 1, hj2⟩) := h1
          _ = jsIndexOf co (rest.get ⟨j, hj⟩) := rfl

lemma someExceeds_of_gt {keys co : List Kind} {j : Nat} (i : Nat) (hj : j < keys.length)
    (h : jsIndexOf co (keys.get ⟨j, hj⟩) < ((i + j : Nat) : Int)) :
    someExceeds keys co i = true := by
  by_contra hfalse
  have hf : someExceeds keys co i = false := by
    cases hsome : someExceeds keys co i
    · rfl
    · exact absurd hsome hfalse
  have := (someExceeds_false_iff keys co i).mp hf j hj
  omega

lemma keys_eq_currentOrder_of_le (keys : List Kind)
    (h : ∀ j (hj : j < keys.length),
      ((j : Nat) : Int) ≤ jsIndexOf (currentOrderOf keys) (keys.get ⟨j, hj⟩)) :
    keys = currentOrderOf keys := by
  classical
  set co := currentOrderOf keys with hco
  have hmemco : ∀ j (hj : j < keys.length), keys.get ⟨j, hj⟩ ∈ co := fun j hj =>
    mem_currentOrder (List.get_mem keys j hj)
  have hidx : ∀ j (hj : j < keys.length), j ≤ co.indexOf (keys.get ⟨j, hj⟩) := by
    intro j hj
    have h1 := h j hj
    rw [jsIndexOf_eq_indexOf (hmemco j hj)] at h1
    exact_mod_cast h1
  have hlt : ∀ j (hj : j < keys.length), co.indexOf (keys.get ⟨j, hj⟩) < co.length :=
    fun j hj => List.indexOf_lt_length.mpr (hmemco j hj)
  have hsub1 : ∀ x ∈ keys, x ∈ co := fun x hx => mem_currentOrder hx
  have hsub2 : ∀ x ∈ co, x ∈ keys := fun x hx => currentOrder_subset hx
  rcases Nat.eq_zero_or_pos keys.length with hn | hn
  · have hkeys : keys = [] := List.length_eq_zero.mp hn
    subst hkeys
    rfl
  · have hndco : co.Nodup := nodup_currentOrder keys
    have hlen1 : co.length ≤ keys.length := by
      have h1 : co.toFinset.card = co.length := List.toFinset_card_of_nodup hndco
      have h2 : co.toFinset ⊆ keys.toFinset := by
        intro x hx
        rw [List.mem_toFinset] at hx ⊢
        exact hsub2 x hx
      have h3 : co.toFinset.card ≤ keys.toFinset.card := Finset.card_le_card h2
      have h4 : keys.toFinset.card ≤ keys.length := List.toFinset_card_le keys
      omega
    have hlen2 : keys.length ≤ co.length := by
      have hj : keys.length - 1 < keys.length := by omega
      have ha := hidx _ hj
      have hb := hlt _ hj
      omega
    have hlen : keys.length = co.length := le_antisymm hlen2 hlen1
    have hfs : keys.toFinset = co.toFinset := by
      ext x
      simp only [List.mem_toFinset]
      exact ⟨hsub1 x, hsub2 x⟩
    have hcard : keys.toFinset.card = keys.length := by
      rw [hfs, List.toFinset_card_of_nodup hndco, hlen]
    have hndk : keys.Nodup := by
      rw [List.card_toFinset] at hcard
      exact List.dedup_eq_self.mp (keys.dedup_sublist.eq_of_length hcard)
    have hltk : ∀ jf : Fin keys.length, co.indexOf (keys.get jf) < keys.length := by
      intro jf
      rw [hlen]
      have h5 := hlt jf.1 jf.2
      simpa using h5
    set fperm : Fin keys.length → Fin keys.length :=
      fun jf => Fin.mk (co.indexOf (keys.get jf)) (hltk jf) with hfperm
    have hinj : Function.Injective fperm := by
      intro a b hab
      have h1 : co.indexOf (keys.get a) = co.indexOf (keys.get b) := by
        have := congrArg Fin.val hab
        simpa [hfperm] using this
      have h2 : keys.get a = keys.get b :=
        (List.indexOf_inj (hmemco a.1 a.2) (hmemco b.1 b.2)).mp h1
      exact (hndk.get_inj_iff).mp h2
    have hbij : Function.Bijective fperm := Finite.injective_iff_bijective.mp hinj
    have hsum : ∑ jf : Fin keys.length, ((fperm jf : Fin keys.length) : Nat)
        = ∑ jf : Fin keys.length, (jf : Nat) :=
      hbij.sum_comp (fun x => (x : Nat))
    have hle : ∀ jf ∈ Finset.univ, ((jf : Fin keys.length) : Nat) ≤ ((fperm jf : Fin keys.length) : Nat) := by
      intro jf _
      simpa [hfperm] using hidx jf.1 jf.2
    have hpt : ∀ jf : Fin keys.length, ((jf : Fin keys.length) : Nat) = ((fperm jf : Fin keys.length) : Nat) := by
      have := (Finset.sum_eq_sum_iff_of_le hle).mp hsum.symm
      intro jf
      exact this jf (Finset.mem_univ jf)
    refine List.ext_get hlen (fun j h1 h2 => ?_)
    have hjj : co.indexOf (keys.get ⟨j, h1⟩) = j := by
      have := hpt ⟨j, h1⟩
      simpa [hfperm] using this.symm
    have hidxlt : co.indexOf (keys.get ⟨j, h1⟩) < co.length := hlt j h1
    have hgi : co.get ⟨co.indexOf (keys.get ⟨j, h1⟩), hidxlt⟩ = keys.get ⟨j, h1⟩ :=
      List.indexOf_get hidxlt
    have hfin : (⟨co.indexOf (keys.get ⟨j, h1⟩), hidxlt⟩ : Fin co.length) = ⟨j, h2⟩ :=
      Fin.ext hjj
    rw [hfin] at hgi
    exact hgi.symm

lemma someExceeds_self_nodup (co : List Kind) (hnd : co.Nodup) :
    someExceeds co co 0 = false := by
  rw [someExceeds_false_iff]
  intro j hj
  rw [jsIndexOf_eq_indexOf (List.get_mem co j hj)]
  rw [List.get_indexOf hnd ⟨j, hj⟩]
  simp

lemma someExceeds_eq_false_of_eq (keys co : List Kind) (hnd : co.Nodup)
    (heq : keys = co) : someExceeds keys co 0 = false := by
  subst heq
  exact someExceeds_self_nodup keys hnd

lemma isValidOrder_eq (b : Builder) :
    b.isValidOrder = !someExceeds b.keys (currentOrderOf b.keys) 0 := rfl

/-- The validation check passes exactly when the insertion-order key
sequence equals the canonical order filtered to the kinds present. -/
lemma isValidOrder_iff_keys_eq (b : Builder) :
    b.isValidOrder = true ↔ b.keys = currentOrderOf b.keys := by
  rw [isValidOrder_eq]
  constructor
  · intro hv
    have hf : someExceeds b.keys (currentOrderOf b.keys) 0 = false := by
      cases hsome : someExceeds b.keys (currentOrderOf b.keys) 0
      · rfl
      · rw [hsome] at hv
        exact absurd hv (by decide)
    have h := (someExceeds_false_iff _ _ 0).mp hf
    apply keys_eq_currentOrder_of_le
    intro j hj
    have h2 := h j hj
    simpa using h2
  · intro heq
    rw [someExceeds_eq_false_of_eq _ _ (nodup_currentOrder b.keys) heq]
    rfl

/-! ### Map helper lemmas -/

lemma mapHas_iff_mem_keys (m : List (Kind × Value)) (k : Kind) :
    mapHas m k = true ↔ k ∈ m.map Prod.fst := by
  induction m with
  | nil => simp [mapHas]
  | cons p rest ih =>
    cases p with
    | mk k2 v2 =>
      by_cases hk : k2 = k
      · subst hk
        simp [mapHas]
      · have hk2 : ¬ k = k2 := fun h => hk h.symm
        simp [mapHas, hk, hk2, ih]

lemma mapHas_iff_lookup (m : List (Kind × Value)) (k : Kind) :
    mapHas m k = true ↔ ∃ v, mapLookup m k = some v := by
  induction m with
  | nil => simp [mapHas, mapLookup]
  | cons p rest ih =>
    cases p with
    | mk k2 v2 =>
      by_cases hk : k2 = k
      · subst hk
        simp [mapHas, mapLookup]
      · simp [mapHas, mapLookup, hk, ih]

lemma keys_mapSet_of_not_has (m : List (Kind × Value)) (k : Kind) (v : Value)
    (h : mapHas m k = false) :
    (mapSet m k v).map Prod.fst = m.map Prod.fst ++ [k] := by
  induction m with
  | nil => simp [mapSet]
  | cons p rest ih =>
    cases p with
    | mk k2 v2 =>
      rw [mapHas] at h
      simp only [Bool.or_eq_false_iff, decide_eq_false_iff_not] at h
      simp [mapSet, h.1, ih h.2]

lemma keys_mapPush (m : List (Kind × Value)) (k : Kind) (s : String) :
    (mapPush m k s).map Prod.fst = m.map Prod.fst := by
  induction m with
  | nil => simp [mapPush]
  | cons p rest ih =>
    cases p with
    | mk k2 v2 =>
      by_cases hk : k2 = k
      · simp [mapPush, hk]
      · simp [mapPush, hk, ih]

lemma mapLookup_mapSet_self (m : List (Kind × Value)) (k : Kind) (v : Value) :
    mapLookup (mapSet m k v) k = some v := by
  induction m with
  | nil => simp [mapSet, mapLookup]
  | cons p rest ih =>
    cases p with
    | mk k2 v2 =>
      by_cases hk : k2 = k
      · simp [mapSet, mapLookup, hk]
      · simp [mapSet, mapLookup, hk, ih]

lemma mapLookup_mapPush_multi (m : List (Kind × Value)) (k : Kind) (s : String)
    (ss : List String) (h : mapLookup m k = some (.multi ss)) :
    mapLookup (mapPush m k s) k = some (.multi (ss ++ [s])) := by
  induction m with
  | nil => simp [mapLookup] at h
  | cons p rest ih =>
    cases p with
    | mk k2 v2 =>
      by_cases hk : k2 = k
      · subst hk
        rw [mapLookup, if_pos rfl] at h
        cases h
        simp [mapPush, mapLookup]
      · rw [mapLookup, if_neg hk] at h
        simp [mapPush, mapLookup, hk, ih h]

/-! ### Common shapes of the mutating methods -/

lemma element_eq_setMethod (b : Builder) (v : String) :
    b.element v = setMethod b .element v := rfl

lemma id_eq_setMethod (b : Builder) (v : String) :
    b.id v = setMethod b .id ("#" ++ v) := rfl

lemma pseudoElement_eq_setMethod (b : Builder) (v : String) :
    b.pseudoElement v = setMethod b .pseudoElement ("::" ++ v) := rfl

lemma class_eq_pushMethod (b : Builder) (v : String) :
    b.«class» v = pushMethod b .«class» ("." ++ v) := rfl

lemma attr_eq_pushMethod (b : Builder) (v : String) :
    b.attr v = pushMethod b .«attribute» ("[" ++ v ++ "]") := rfl

lemma pseudoClass_eq_pushMethod (b : Builder) (v : String) :
    b.pseudoClass v = pushMethod b .pseudoClass (":" ++ v) := rfl

lemma errKind_ite (c : Prop) [Decidable c] (b2 : Builder) :
    (if c then MRes.ok b2 else MRes.err .order b2).errKind
      = if c then none else some ErrKind.order := by
  by_cases h : c <;> simp [h, MRes.errKind]

lemma state_ite (c : Prop) [Decidable c] (b2 : Builder) :
    (if c then MRes.ok b2 else MRes.err .order b2).state = b2 := by
  by_cases h : c <;> simp [h, MRes.state]

lemma setMethod_errKind_occur_iff (b : Builder) (k : Kind) (s : String) :
    (setMethod b k s).errKind = some ErrKind.occur ↔ mapHas b.selectors k = true := by
  by_cases h : mapHas b.selectors k
  · simp [setMethod, h, MRes.errKind]
  · simp only [setMethod, h, Bool.false_eq_true, if_false, errKind_ite]
    by_cases hv : (Builder.mk (mapSet b.selectors k (.single s)) b.combineStorage).isValidOrder
    · simp [hv, h]
    · simp [hv, h]

lemma setMethod_state_of_occur (b : Builder) (k : Kind) (s : String)
    (h : (setMethod b k s).errKind = some ErrKind.occur) : (setMethod b k s).state = b := by
  have hhas : mapHas b.selectors k = true := (setMethod_errKind_occur_iff b k s).mp h
  simp [setMethod, hhas, MRes.state]

lemma setMethod_state_of_not_has (b : Builder) (k : Kind) (s : String)
    (h : mapHas b.selectors k = false) :
    (setMethod b k s).state = Builder.mk (mapSet b.selectors k (.single s)) b.combineStorage := by
  simp only [setMethod, h, Bool.false_eq_true, if_false]
  exact state_ite _ _

lemma setMethod_lookup_of_order (b : Builder) (k : Kind) (s : String)
    (h : (setMethod b k s).errKind = some ErrKind.order) :
    mapLookup (setMethod b k s).state.selectors k = some (.single s) := by
  have hhas : mapHas b.selectors k = false := by
    cases hh : mapHas b.selectors k
    · rfl
    · rw [setMethod, if_pos hh] at h
      cases h
  rw [setMethod_state_of_not_has b k s hhas]
  exact mapLookup_mapSet_self b.selectors k (.single s)

lemma pushMethod_state (b : Builder) (k : Kind) (s : String) :
    (pushMethod b k s).state
      = Builder.mk
          (mapPush (if mapHas b.selectors k then b.selectors
                    else mapSet b.selectors k (.multi [])) k s)
          b.combineStorage := by
  simp only [pushMethod]
  exact state_ite _ _

lemma pushMethod_errKind_ne_occur (b : Builder) (k : Kind) (s : String) :
    (pushMethod b k s).errKind ≠ some ErrKind.occur := by
  simp only [pushMethod, errKind_ite]
  by_cases hv : (Builder.mk
      (mapPush (if mapHas b.selectors k then b.selectors
                else mapSet b.selectors k (.multi [])) k s) b.combineStorage).isValidOrder
  · simp [hv]
  · simp [hv]

lemma pushMethod_fragList (b : Builder) (k : Kind) (s : String)
    (hmo : multiOk b.selectors k) :
    fragList (pushMethod b k s).state k = fragList b k ++ [s] := by
  rw [pushMethod_state]
  rcases hmo with hnone | ⟨ss, hss⟩
  · have hhas : mapHas b.selectors k = false := by
      cases hh : mapHas b.selectors k
      · rfl
      · rcases (mapHas_iff_lookup b.selectors k).mp hh with ⟨v, hv⟩
        rw [hnone] at hv
        cases hv
    have h1 : mapLookup (mapSet b.selectors k (.multi [])) k = some (.multi []) :=
      mapLookup_mapSet_self b.selectors k (.multi [])
    have h2 := mapLookup_mapPush_multi (mapSet b.selectors k (.multi [])) k s [] h1
    simp [fragList, hhas, h2, hnone]
  · have hhas : mapHas b.selectors k = true := (mapHas_iff_lookup b.selectors k).mpr ⟨_, hss⟩
    have h2 := mapLookup_mapPush_multi b.selectors k s ss hss
    simp [fragList, hhas, h2, hss]

lemma pushMethod_keys (b : Builder) (k : Kind) (s : String) :
    (pushMethod b k s).state.keys
      = if mapHas b.selectors k then b.keys else b.keys ++ [k] := by
  rw [pushMethod_state]
  cases hh : mapHas b.selectors k
  · simp [Builder.keys, keys_mapPush, keys_mapSet_of_not_has b.selectors k _ hh]
  · simp [Builder.keys, keys_mapPush]

/-- C3: for every builder, `element`, `id` and `pseudoElement` raise the
duplicate-occurrence error exactly when the same singleton kind is already
present, so in particular a first call of one of those kinds never raises
that error. -/
theorem c3_singleton_duplicate_iff (b : Builder) (v : String) :
    ((b.element v).errKind = some ErrKind.occur ↔ mapHas b.selectors .element = true)
    ∧ ((b.id v).errKind = some ErrKind.occur ↔ mapHas b.selectors .id = true)
    ∧ ((b.pseudoElement v).errKind = some ErrKind.occur
        ↔ mapHas b.selectors .pseudoElement = true) :=
  ⟨by rw [element_eq_setMethod]; exact setMethod_errKind_occur_iff b .element v,
   by rw [id_eq_setMethod]; exact setMethod_errKind_occur_iff b .id _,
   by rw [pseudoElement_eq_setMethod]; exact setMethod_errKind_occur_iff b .pseudoElement _⟩

/-- Witness for C3 at a concrete input: a second `element` call raises the
duplicate-occurrence error, and a first `id` call does not. -/
theorem c3_singleton_duplicate_iff_witness :
    (Builder.element (Builder.mk [(Kind.element, Value.single "a")] []) "b").errKind
        = some ErrKind.occur
    ∧ (Builder.id (Builder.mk [(Kind.element, Value.single "a")] []) "x").errKind
        ≠ some ErrKind.occur := by
  constructor
  · exact (c3_singleton_duplicate_iff (Builder.mk [(Kind.element, Value.single "a")] []) "b").1.mpr
      (by decide)
  · intro hco
    have h2 := (c3_singleton_duplicate_iff (Builder.mk [(Kind.element, Value.single "a")] []) "x").2.1.mp hco
    exact absurd h2 (by decide)

/-- C10: when `element`, `id` or `pseudoElement` raises the
duplicate-occurrence error, the builder state is exactly what it was
before the failing call (the duplicate check precedes any mutation). -/
theorem c10_occur_error_preserves_state (b : Builder) (v : String) :
    ((b.element v).errKind = some ErrKind.occur → (b.element v).state = b)
    ∧ ((b.id v).errKind = some ErrKind.occur → (b.id v).state = b)
    ∧ ((b.pseudoElement v).errKind = some ErrKind.occur → (b.pseudoElement v).state = b) :=
  ⟨by rw [element_eq_setMethod]; exact setMethod_state_of_occur b .element v,
   by rw [id_eq_setMethod]; exact setMethod_state_of_occur b .id _,
   by rw [pseudoElement_eq_setMethod]; exact setMethod_state_of_occur b .pseudoElement _⟩

/-- Witness for C10 at a concrete input: a duplicate `id` call leaves the
builder unchanged, original stored value included. -/
theorem c10_occur_error_preserves_state_witness :
    (Builder.id (Builder.mk [(Kind.id, Value.single "#x")] []) "y").state
      = Builder.mk [(Kind.id, Value.single "#x")] [] :=
  (c10_occur_error_preserves_state (Builder.mk [(Kind.id, Value.single "#x")] []) "y").2.1
    (by decide)

/-- C8: a mutating call that raises the invalid-order error has already
stored the offending fragment before throwing: for the singleton kinds
the order error implies the new value is in the map, and for the
repeatable kinds the formatted value is appended to the stored array
whether or not the order check then throws. -/
theorem c8_order_error_keeps_fragment (b : Builder) (v : String) :
    ((b.element v).errKind = some ErrKind.order →
        mapLookup (b.element v).state.selectors .element = some (.single v))
    ∧ ((b.id v).errKind = some ErrKind.order →
        mapLookup (b.id v).state.selectors .id = some (.single ("#" ++ v)))
    ∧ ((b.pseudoElement v).errKind = some ErrKind.order →
        mapLookup (b.pseudoElement v).state.selectors .pseudoElement
          = some (.single ("::" ++ v)))
    ∧ (multiOk b.selectors .«class» →
        fragList (b.«class» v).state .«class» = fragList b .«class» ++ ["." ++ v])
    ∧ (multiOk b.selectors .«attribute» →
        fragList (b.attr v).state .«attribute» = fragList b .«attribute» ++ ["[" ++ v ++ "]"])
    ∧ (multiOk b.selectors .pseudoClass →
        fragList (b.pseudoClass v).state .pseudoClass = fragList b .pseudoClass ++ [":" ++ v]) :=
  ⟨by rw [element_eq_setMethod]; exact setMethod_lookup_of_order b .element v,
   by rw [id_eq_setMethod]; exact setMethod_lookup_of_order b .id _,
   by rw [pseudoElement_eq_setMethod]; exact setMethod_lookup_of_order b .pseudoElement _,
   by rw [class_eq_pushMethod]; exact fun hmo => pushMethod_fragList b .«class» _ hmo,
   by rw [attr_eq_pushMethod]; exact fun hmo => pushMethod_fragList b .«attribute» _ hmo,
   by rw [pseudoClass_eq_pushMethod]; exact fun hmo => pushMethod_fragList b .pseudoClass _ hmo⟩

/-- Witness for C8 at concrete inputs: `element` after `class` raises the
order error with the element value stored, and `class` after `attr`
raises the order error with the class value appended. -/
theorem c8_order_error_keeps_fragment_witness :
    mapLookup (Builder.element (Builder.mk [(Kind.«class», Value.multi [".c"])] []) "a").state.selectors
        Kind.element = some (Value.single "a")
    ∧ (Builder.«class» (Builder.mk [(Kind.«attribute», Value.multi ["[x]"])] []) "c").errKind
        = some ErrKind.order
    ∧ fragList (Builder.«class» (Builder.mk [(Kind.«attribute», Value.multi ["[x]"])] []) "c").state
        Kind.«class» = fragList (Builder.mk [(Kind.«attribute», Value.multi ["[x]"])] []) Kind.«class» ++ [".c"] := by
  refine ⟨?_, by decide, ?_⟩
  · exact (c8_order_error_keeps_fragment (Builder.mk [(Kind.«class», Value.multi [".c"])] []) "a").1
      (by decide)
  · exact (c8_order_error_keeps_fragment (Builder.mk [(Kind.«attribute», Value.multi ["[x]"])] []) "c").2.2.2.1
      (Or.inl rfl)

/-- C2: for every builder state, the order-validation check passes if and
only if the insertion-order sequence of the kinds present equals the
canonical order filtered to the kinds present. -/
theorem c2_valid_iff_insertion_is_filtered_canonical (b : Builder) :
    b.isValidOrder = true ↔ b.keys = defaultOrder.filter (fun s => b.keys.contains s) :=
  isValidOrder_iff_keys_eq b

/-- C9: `stringify` is pure and idempotent: the state-threaded translation
of the method returns the state unchanged, and a second call on that
state returns the same string. -/
theorem c9_stringify_pure_idempotent (b : Builder) :
    b.stringifyS.2 = b ∧ (b.stringifyS.2).stringifyS.1 = b.stringifyS.1 :=
  ⟨rfl, rfl⟩

/-- C7: the repeatable kinds append the formatted value at the end of the
stored array on every call, keeping call order and duplicates, and the
worked example renders as `.container.editable`. -/
theorem c7_repeatable_keeps_order_and_duplicates (b : Builder) (v : String) :
    (multiOk b.selectors .«class» →
        fragList (b.«class» v).state .«class» = fragList b .«class» ++ ["." ++ v])
    ∧ (multiOk b.selectors .«attribute» →
        fragList (b.attr v).state .«attribute» = fragList b .«attribute» ++ ["[" ++ v ++ "]"])
    ∧ (multiOk b.selectors .pseudoClass →
        fragList (b.pseudoClass v).state .pseudoClass = fragList b .pseudoClass ++ [":" ++ v])
    ∧ (cssSelectorBuilder.«class» "container").bind (fun b2 => b2.«class» "editable")
        = MRes.ok (Builder.mk [(Kind.«class», Value.multi [".container", ".editable"])] [])
    ∧ (Builder.mk [(Kind.«class», Value.multi [".container", ".editable"])] []).stringify
        = ".container.editable" :=
  ⟨by rw [class_eq_pushMethod]; exact fun hmo => pushMethod_fragList b .«class» _ hmo,
   by rw [attr_eq_pushMethod]; exact fun hmo => pushMethod_fragList b .«attribute» _ hmo,
   by rw [pseudoClass_eq_pushMethod]; exact fun hmo => pushMethod_fragList b .pseudoClass _ hmo,
   by decide, by decide⟩

/-- Witness for C7 at a concrete input: pushing a duplicate class value
appends it again rather than deduplicating. -/
theorem c7_repeatable_keeps_order_and_duplicates_witness :
    fragList (Builder.«class» (Builder.mk [(Kind.«class», Value.multi [".a"])] []) "a").state
      Kind.«class» = [".a"] ++ [".a"] :=
  (c7_repeatable_keeps_order_and_duplicates
      (Builder.mk [(Kind.«class», Value.multi [".a"])] []) "a").1
    (Or.inr ⟨[".a"], rfl⟩)

/-- C6: `combine` stores the fragment values of the left selector, the
spaced combinator token, the fragment values of the right selector and
the combine storage of the right selector, but never the combine storage
of the left selector: the result does not depend on it at all, and a
left-nested combination (empty fragments) contributes nothing. -/
theorem c6_combine_ignores_left_storage (s1 : Builder) (c : String) (s2 : Builder) :
    ((cssSelectorBuilder.combine s1 c s2).combineStorage
        = selectorToks s1 ++ [Tok.str (" " ++ c ++ " ")] ++ selectorToks s2
            ++ s2.combineStorage)
    ∧ (∀ cs1 : List Tok,
        cssSelectorBuilder.combine (Builder.mk s1.selectors cs1) c s2
          = cssSelectorBuilder.combine s1 c s2)
    ∧ (cssSelectorBuilder.combine
        (cssSelectorBuilder.combine (Builder.mk [(Kind.element, Value.single "a")] []) ">"
          (Builder.mk [(Kind.element, Value.single "b")] []))
        "+" (Builder.mk [(Kind.element, Value.single "c")] [])).stringify = " + c" :=
  ⟨rfl, fun _ => rfl, by decide⟩

/-! ### String-rendering lemmas -/

lemma join_append (l1 l2 : List String) :
    String.join (l1 ++ l2) = String.join l1 ++ String.join l2 := by
  apply String.ext
  simp [String.join_eq, String.data_append]

lemma join_singleton (s : String) : String.join [s] = s := by
  apply String.ext
  simp [String.join_eq]

lemma flatMap_selectorToks (sels : List (Kind × Value)) :
    ((sels.map (fun p => p.2.toTok)).flatMap Tok.flat)
      = (sels.map Prod.snd).flatMap Value.flat := by
  induction sels with
  | nil => rfl
  | cons p rest ih =>
    cases p with
    | mk k v =>
      have hhead : Tok.flat (Value.toTok v) = Value.flat v := by cases v <;> rfl
      simp [List.flatMap_cons, hhead, ih]

lemma stringify_of_storage_pos (b : Builder) (h : 0 < b.combineStorage.length) :
    b.stringify = String.join (b.combineStorage.flatMap Tok.flat) := by
  simp [Builder.stringify, h]

lemma stringify_of_no_storage (b : Builder) (h : b.combineStorage = []) :
    b.stringify = String.join ((b.selectors.map Prod.snd).flatMap Value.flat) := by
  simp [Builder.stringify, h]

lemma join_toks (b : Builder) (h : b.combineStorage = []) :
    String.join ((selectorToks b).flatMap Tok.flat) = b.stringify := by
  rw [stringify_of_no_storage b h, selectorToks, flatMap_selectorToks]

lemma join_cons (s : String) (l : List String) :
    String.join (s :: l) = s ++ String.join l := by
  apply String.ext
  simp [String.join_eq, String.data_append]

lemma selectorToks_mk_nil (cs : List Tok) : selectorToks (Builder.mk [] cs) = [] := rfl

lemma flatMap_singleton_str (s : String) : ([Tok.str s] : List Tok).flatMap Tok.flat = [s] := rfl

/-- C5: for non-combined builders A, B, C, the right-nested combination
renders as the three selector strings joined by the literal spaced
combinator tokens, and the worked docstring example renders exactly,
three-character space run included. -/
theorem c5_right_nested_combine_stringify (A B C : Builder)
    (hA : A.combineStorage = []) (hB : B.combineStorage = []) (hC : C.combineStorage = []) :
    (cssSelectorBuilder.combine A "+" (cssSelectorBuilder.combine B "~" C)).stringify
      = A.stringify ++ " + " ++ B.stringify ++ " ~ " ++ C.stringify
    ∧ (cssSelectorBuilder.combine
        (Builder.mk [(Kind.element, Value.single "div"), (Kind.id, Value.single "#main"),
          (Kind.«class», Value.multi [".container", ".draggable"])] [])
        "+"
        (cssSelectorBuilder.combine
          (Builder.mk [(Kind.element, Value.single "table"), (Kind.id, Value.single "#data")] [])
          "~"
          (cssSelectorBuilder.combine
            (Builder.mk [(Kind.element, Value.single "tr"),
              (Kind.pseudoClass, Value.multi [":nth-of-type(even)"])] [])
            " "
            (Builder.mk [(Kind.element, Value.single "td"),
              (Kind.pseudoClass, Value.multi [":nth-of-type(even)"])] [])))).stringify
      = "div#main.container.draggable + table#data ~ tr:nth-of-type(even)   td:nth-of-type(even)" := by
  constructor
  · have hp : (" " ++ "+" ++ " " : String) = " + " := rfl
    have ht : (" " ++ "~" ++ " " : String) = " ~ " := rfl
    have hsto : (cssSelectorBuilder.combine A "+" (cssSelectorBuilder.combine B "~" C)).combineStorage
        = selectorToks A ++ ([Tok.str " + "] ++ (selectorToks B ++ ([Tok.str " ~ "] ++ selectorToks C))) := by
      simp only [cssSelectorBuilder.combine, Builder.combine, newBuilder, selectorToks_mk_nil,
        hp, ht, hC, List.nil_append, List.append_nil, List.append_assoc]
    rw [stringify_of_storage_pos _ (by rw [hsto]; simp)]
    rw [hsto]
    simp only [List.flatMap_append, join_append, flatMap_singleton_str, join_singleton,
      join_toks A hA, join_toks B hB, join_toks C hC]
    simp [String.append_assoc]
  · decide

/-- Witness for C5 at a concrete input: three single-element selectors
combined right-nested render with the spaced combinator tokens. -/
theorem c5_right_nested_combine_stringify_witness :
    (cssSelectorBuilder.combine (Builder.mk [(Kind.element, Value.single "a")] []) "+"
      (cssSelectorBuilder.combine (Builder.mk [(Kind.element, Value.single "b")] []) "~"
        (Builder.mk [(Kind.element, Value.single "c")] []))).stringify = "a + b ~ c" := by
  have h := (c5_right_nested_combine_stringify
    (Builder.mk [(Kind.element, Value.single "a")] [])
    (Builder.mk [(Kind.element, Value.single "b")] [])
    (Builder.mk [(Kind.element, Value.single "c")] []) rfl rfl rfl).1
  rw [h]
  decide

/-- C1: a chain from the facade calling all six fragment kinds once in
canonical order succeeds, and stringify returns the formatted fragments
concatenated with no separator; in particular the worked example yields
the expected selector string. -/
theorem c1_full_canonical_chain (a x c t f p : String) :
    ((((((cssSelectorBuilder.element a).bind (fun bb => bb.id x)).bind
        (fun bb => bb.«class» c)).bind (fun bb => bb.attr t)).bind
        (fun bb => bb.pseudoClass f)).bind (fun bb => bb.pseudoElement p))
      = MRes.ok (Builder.mk
          [(Kind.element, Value.single a), (Kind.id, Value.single ("#" ++ x)),
           (Kind.«class», Value.multi ["." ++ c]),
           (Kind.«attribute», Value.multi ["[" ++ t ++ "]"]),
           (Kind.pseudoClass, Value.multi [":" ++ f]),
           (Kind.pseudoElement, Value.single ("::" ++ p))] [])
    ∧ (Builder.mk
          [(Kind.element, Value.single a), (Kind.id, Value.single ("#" ++ x)),
           (Kind.«class», Value.multi ["." ++ c]),
           (Kind.«attribute», Value.multi ["[" ++ t ++ "]"]),
           (Kind.pseudoClass, Value.multi [":" ++ f]),
           (Kind.pseudoElement, Value.single ("::" ++ p))] []).stringify
        = a ++ "#" ++ x ++ "." ++ c ++ "[" ++ t ++ "]" ++ ":" ++ f ++ "::" ++ p
    ∧ ((((((cssSelectorBuilder.element "a").bind (fun bb => bb.id "x")).bind
        (fun bb => bb.«class» "c")).bind (fun bb => bb.attr "href$=\".png\"")).bind
        (fun bb => bb.pseudoClass "focus")).bind
        (fun bb => bb.pseudoElement "before")).state.stringify
        = "a#x.c[href$=\".png\"]:focus::before" := by
  refine ⟨?_, ?_, by decide⟩
  · have e1 : cssSelectorBuilder.element a
        = MRes.ok (Builder.mk [(Kind.element, Value.single a)] []) := rfl
    have e2 : Builder.id (Builder.mk [(Kind.element, Value.single a)] []) x
        = MRes.ok (Builder.mk
            [(Kind.element, Value.single a), (Kind.id, Value.single ("#" ++ x))] []) := rfl
    have e3 : Builder.«class» (Builder.mk
          [(Kind.element, Value.single a), (Kind.id, Value.single ("#" ++ x))] []) c
        = MRes.ok (Builder.mk
            [(Kind.element, Value.single a), (Kind.id, Value.single ("#" ++ x)),
             (Kind.«class», Value.multi ["." ++ c])] []) := rfl
    have e4 : Builder.attr (Builder.mk
          [(Kind.element, Value.single a), (Kind.id, Value.single ("#" ++ x)),
           (Kind.«class», Value.multi ["." ++ c])] []) t
        = MRes.ok (Builder.mk
            [(Kind.element, Value.single a), (Kind.id, Value.single ("#" ++ x)),
             (Kind.«class», Value.multi ["." ++ c]),
             (Kind.«attribute», Value.multi ["[" ++ t ++ "]"])] []) := rfl
    have e5 : Builder.pseudoClass (Builder.mk
          [(Kind.element, Value.single a), (Kind.id, Value.single ("#" ++ x)),
           (Kind.«class», Value.multi ["." ++ c]),
           (Kind.«attribute», Value.multi ["[" ++ t ++ "]"])] []) f
        = MRes.ok (Builder.mk
            [(Kind.element, Value.single a), (Kind.id, Value.single ("#" ++ x)),
             (Kind.«class», Value.multi ["." ++ c]),
             (Kind.«attribute», Value.multi ["[" ++ t ++ "]"]),
             (Kind.pseudoClass, Value.multi [":" ++ f])] []) := rfl
    have e6 : Builder.pseudoElement (Builder.mk
          [(Kind.element, Value.single a), (Kind.id, Value.single ("#" ++ x)),
           (Kind.«class», Value.multi ["." ++ c]),
           (Kind.«attribute», Value.multi ["[" ++ t ++ "]"]),
           (Kind.pseudoClass, Value.multi [":" ++ f])] []) p
        = MRes.ok (Builder.mk
            [(Kind.element, Value.single a), (Kind.id, Value.single ("#" ++ x)),
             (Kind.«class», Value.multi ["." ++ c]),
             (Kind.«attribute», Value.multi ["[" ++ t ++ "]"]),
             (Kind.pseudoClass, Value.multi [":" ++ f]),
             (Kind.pseudoElement, Value.single ("::" ++ p))] []) := rfl
    rw [e1]
    simp only [MRes.bind]
    rw [e2]
    simp only [MRes.bind]
    rw [e3]
    simp only [MRes.bind]
    rw [e4]
    simp only [MRes.bind]
    rw [e5]
    simp only [MRes.bind]
    rw [e6]
  · show String.join [a, "#" ++ x, "." ++ c, "[" ++ t ++ "]", ":" ++ f, "::" ++ p] = _
    simp [join_cons, show String.join [] = "" from rfl, String.append_empty,
      String.append_assoc]
    rw [show ∀ Y : String, "]" ++ (":" ++ Y) = "]:" ++ Y from fun Y => by
      rw [← String.append_assoc, show ("]" : String) ++ ":" = "]:" from rfl]]

/-! ### The order error on id after class, and repeated class calls -/

lemma get_append_last (l : List Kind) (k : Kind) (h : l.length < (l ++ [k]).length) :
    (l ++ [k]).get ⟨l.length, h⟩ = k := by
  induction l with
  | nil => rfl
  | cons y l2 ih => exact ih (by simp)

lemma two_le_length_of_two_mem (l : List Kind) (k1 k2 : Kind) (hne : k1 ≠ k2)
    (h1 : k1 ∈ l) (h2 : k2 ∈ l) : 2 ≤ l.length := by
  have hsub : ({k1, k2} : Finset Kind) ⊆ l.toFinset := by
    intro y hy
    rw [List.mem_toFinset]
    rcases Finset.mem_insert.mp hy with h | h
    · subst h; exact h1
    · rw [Finset.mem_singleton] at h; subst h; exact h2
  have hcard : ({k1, k2} : Finset Kind).card = 2 := Finset.card_pair hne
  have hc1 := Finset.card_le_card hsub
  have hc2 := List.toFinset_card_le l
  omega

lemma contains_eq_mapHas (m : List (Kind × Value)) (k : Kind) :
    (m.map Prod.fst).contains k = mapHas m k := by
  cases h : mapHas m k
  · cases hc : (m.map Prod.fst).contains k
    · rfl
    · exact absurd ((mapHas_iff_mem_keys m k).mpr ((contains_true_iff _ k).mp hc))
        (by simp [h])
  · exact (contains_true_iff _ k).mpr ((mapHas_iff_mem_keys m k).mp h)

lemma keys_contains (b : Builder) (k : Kind) :
    b.keys.contains k = mapHas b.selectors k :=
  contains_eq_mapHas b.selectors k

lemma id_after_class_order_error (b : Builder) (w : String)
    (hc : mapHas b.selectors .«class» = true) (hid : mapHas b.selectors .id = false) :
    (b.id w).errKind = some ErrKind.order := by
  have hclmem : Kind.«class» ∈ b.keys := (mapHas_iff_mem_keys b.selectors _).mp hc
  have hkeys2 : (Builder.mk (mapSet b.selectors .id (.single ("#" ++ w))) b.combineStorage).keys
      = b.keys ++ [Kind.id] := by
    show (mapSet b.selectors .id (.single ("#" ++ w))).map Prod.fst = _
    exact keys_mapSet_of_not_has b.selectors .id _ hid
  have hj : b.keys.length < (b.keys ++ [Kind.id]).length := by simp
  have hget : (b.keys ++ [Kind.id]).get ⟨b.keys.length, hj⟩ = Kind.id :=
    get_append_last b.keys Kind.id hj
  have hidc : (b.keys ++ [Kind.id]).contains Kind.id = true :=
    (contains_true_iff _ _).mpr (List.mem_append_right _ (by simp))
  have hse : someExceeds (b.keys ++ [Kind.id]) (currentOrderOf (b.keys ++ [Kind.id])) 0 = true := by
    cases hEl : (b.keys ++ [Kind.id]).contains Kind.element
    · have helnot : Kind.element ∉ b.keys := by
        intro hm
        have h2 : (b.keys ++ [Kind.id]).contains Kind.element = true :=
          (contains_true_iff _ _).mpr (List.mem_append_left _ hm)
        rw [hEl] at h2
        cases h2
      have hco : jsIndexOf (currentOrderOf (b.keys ++ [Kind.id])) Kind.id = 0 := by
        simp [currentOrderOf, defaultOrder, List.filter_cons, helnot, jsIndexOf]
      have hlen : 1 ≤ b.keys.length := List.length_pos_of_mem hclmem
      refine someExceeds_of_gt 0 hj ?_
      rw [hget, hco]
      push_cast
      omega
    · have helmem : Kind.element ∈ b.keys := by
        have h2 := (contains_true_iff _ _).mp hEl
        rcases List.mem_append.mp h2 with h | h
        · exact h
        · simp at h
      have hco : jsIndexOf (currentOrderOf (b.keys ++ [Kind.id])) Kind.id = 1 := by
        simp [currentOrderOf, defaultOrder, List.filter_cons, helmem, jsIndexOf]
      have hlen : 2 ≤ b.keys.length :=
        two_le_length_of_two_mem b.keys Kind.element Kind.«class» (by decide) helmem hclmem
      refine someExceeds_of_gt 0 hj ?_
      rw [hget, hco]
      push_cast
      omega
  have hval : (Builder.mk (mapSet b.selectors .id (.single ("#" ++ w))) b.combineStorage).isValidOrder
      = false := by
    rw [isValidOrder_eq, hkeys2, hse]
    rfl
  rw [id_eq_setMethod, setMethod]
  simp only [hid, Bool.false_eq_true, if_false, hval]
  rfl

lemma pushMethod_eq_ok_of_state_valid (b : Builder) (k : Kind) (s : String)
    (hv2 : (pushMethod b k s).state.isValidOrder = true) :
    pushMethod b k s = MRes.ok ((pushMethod b k s).state) := by
  rw [pushMethod_state] at hv2 ⊢
  simp [pushMethod, hv2]

lemma class_step_ok (b : Builder) (v : String) (hv : b.isValidOrder = true)
    (hside : mapHas b.selectors .«class» = true
      ∨ (mapHas b.selectors .«attribute» = false ∧ mapHas b.selectors .pseudoClass = false
          ∧ mapHas b.selectors .pseudoElement = false)) :
    ∃ b2, b.«class» v = MRes.ok b2 ∧ b2.isValidOrder = true
        ∧ mapHas b2.selectors .«class» = true := by
  rw [class_eq_pushMethod]
  by_cases hc : mapHas b.selectors .«class» = true
  · have hkeys : (pushMethod b .«class» ("." ++ v)).state.keys = b.keys := by
      rw [pushMethod_keys, if_pos hc]
    have hv2 : (pushMethod b .«class» ("." ++ v)).state.isValidOrder = true := by
      rw [isValidOrder_eq, hkeys, ← isValidOrder_eq, hv]
    refine ⟨(pushMethod b .«class» ("." ++ v)).state,
      pushMethod_eq_ok_of_state_valid b .«class» _ hv2, hv2, ?_⟩
    refine (mapHas_iff_mem_keys _ _).mpr ?_
    show Kind.«class» ∈ (pushMethod b .«class» ("." ++ v)).state.keys
    rw [hkeys]
    exact (mapHas_iff_mem_keys _ _).mp hc
  · have hcf : mapHas b.selectors .«class» = false := by
      cases hcc : mapHas b.selectors .«class»
      · rfl
      · exact absurd hcc hc
    rcases hside with hcT | ⟨ha, hp, hpe⟩
    · exact absurd hcT hc
    have hkeys : (pushMethod b .«class» ("." ++ v)).state.keys = b.keys ++ [Kind.«class»] := by
      rw [pushMethod_keys, if_neg (by simp [hcf])]
    have hclf : b.keys.contains Kind.«class» = false := by rw [keys_contains]; exact hcf
    have haf : b.keys.contains Kind.«attribute» = false := by rw [keys_contains]; exact ha
    have hpf : b.keys.contains Kind.pseudoClass = false := by rw [keys_contains]; exact hp
    have hpef : b.keys.contains Kind.pseudoElement = false := by rw [keys_contains]; exact hpe
    have hclnot : Kind.«class» ∉ b.keys := by
      intro hm
      rw [(contains_true_iff _ _).mpr hm] at hclf
      cases hclf
    have hanot : Kind.«attribute» ∉ b.keys := by
      intro hm
      rw [(contains_true_iff _ _).mpr hm] at haf
      cases haf
    have hpnot : Kind.pseudoClass ∉ b.keys := by
      intro hm
      rw [(contains_true_iff _ _).mpr hm] at hpf
      cases hpf
    have hpenot : Kind.pseudoElement ∉ b.keys := by
      intro hm
      rw [(contains_true_iff _ _).mpr hm] at hpef
      cases hpef
    have hkeysform : b.keys
        = (if Kind.element ∈ b.keys then [Kind.element] else [])
          ++ (if Kind.id ∈ b.keys then [Kind.id] else []) := by
      conv_lhs => rw [(isValidOrder_iff_keys_eq b).mp hv]
      simp only [currentOrderOf, defaultOrder, List.filter_cons, List.filter_nil,
        contains_true_iff, hclnot, hanot, hpnot, hpenot, decide_eq_true_eq]
      by_cases hEl2 : Kind.element ∈ b.keys <;> simp [hEl2]
    have hv2 : (pushMethod b .«class» ("." ++ v)).state.isValidOrder = true := by
      rw [isValidOrder_eq, hkeys]
      by_cases hEl : Kind.element ∈ b.keys <;> by_cases hId : Kind.id ∈ b.keys
      · rw [show b.keys = [Kind.element, Kind.id] from by rw [hkeysform]; simp [hEl, hId]]
        decide
      · rw [show b.keys = [Kind.element] from by rw [hkeysform]; simp [hEl, hId]]
        decide
      · rw [show b.keys = [Kind.id] from by rw [hkeysform]; simp [hEl, hId]]
        decide
      · rw [show b.keys = [] from by rw [hkeysform]; simp [hEl, hId]]
        decide
    refine ⟨(pushMethod b .«class» ("." ++ v)).state,
      pushMethod_eq_ok_of_state_valid b .«class» _ hv2, hv2, ?_⟩
    refine (mapHas_iff_mem_keys _ _).mpr ?_
    show Kind.«class» ∈ (pushMethod b .«class» ("." ++ v)).state.keys
    rw [hkeys]
    exact List.mem_append_right _ (by simp)

lemma classChain_ok (vs : List String) : ∀ b : Builder, b.isValidOrder = true →
    (mapHas b.selectors .«class» = true
      ∨ (mapHas b.selectors .«attribute» = false ∧ mapHas b.selectors .pseudoClass = false
          ∧ mapHas b.selectors .pseudoElement = false)) →
    (classChain (MRes.ok b) vs).isOk = true := by
  induction vs with
  | nil => intro b hv hside; rfl
  | cons v rest ih =>
    intro b hv hside
    rcases class_step_ok b v hv hside with ⟨b2, hstep, hv2, hc2⟩
    show (classChain ((MRes.ok b).bind (fun bb => bb.«class» v)) rest).isOk = true
    rw [show (MRes.ok b).bind (fun bb => bb.«class» v) = Builder.«class» b v from rfl, hstep]
    exact ih b2 hv2 (Or.inl hc2)

/-- C4 counterexample: the builder produced by the facade `attr` call has
its kinds in canonical order, yet a single following `class` call raises
the invalid-order error, contradicting the claim that class calls on a
canonically ordered builder never raise; and on the chain id-class-id the
`id` call made after `class` raises the duplicate-occurrence error, not
the invalid-order error. -/
theorem c4_counterexample_class_after_attr :
    cssSelectorBuilder.attr "x"
      = MRes.ok (Builder.mk [(Kind.«attribute», Value.multi ["[x]"])] [])
    ∧ (Builder.mk [(Kind.«attribute», Value.multi ["[x]"])] []).isValidOrder = true
    ∧ (Builder.«class» (Builder.mk [(Kind.«attribute», Value.multi ["[x]"])] []) "c").errKind
        = some ErrKind.order
    ∧ (((cssSelectorBuilder.id "a").bind (fun bb => bb.«class» "c")).bind
        (fun bb => bb.id "b")).errKind = some ErrKind.occur :=
  ⟨by decide, by decide, by decide, by decide⟩

/-- C4 amended: calling `id` after `class` raises the invalid-order error
at that call provided `id` is not already present (a present `id` raises
the duplicate-occurrence error instead), and a run of consecutive `class`
calls on a valid builder never raises any error provided `class` is
already present or no kind canonically after `class` is present. -/
theorem c4_amended_id_after_class_and_class_runs (b : Builder) (w : String) (vs : List String) :
    (mapHas b.selectors .«class» = true → mapHas b.selectors .id = false →
        (b.id w).errKind = some ErrKind.order)
    ∧ (b.isValidOrder = true →
        (mapHas b.selectors .«class» = true
          ∨ (mapHas b.selectors .«attribute» = false ∧ mapHas b.selectors .pseudoClass = false
              ∧ mapHas b.selectors .pseudoElement = false)) →
        (classChain (MRes.ok b) vs).isOk = true) :=
  ⟨fun hc hid => id_after_class_order_error b w hc hid,
   fun hv hside => classChain_ok vs b hv hside⟩

/-- Witness for the amended C4 at concrete inputs: on a builder holding
one class, `id` raises the order error and two further class calls
succeed. -/
theorem c4_amended_id_after_class_and_class_runs_witness :
    (Builder.id (Builder.mk [(Kind.«class», Value.multi [".c"])] []) "x").errKind
        = some ErrKind.order
    ∧ (classChain (MRes.ok (Builder.mk [(Kind.«class», Value.multi [".c"])] [])) ["a", "b"]).isOk
        = true := by
  constructor
  · exact (c4_amended_id_after_class_and_class_runs
      (Builder.mk [(Kind.«class», Value.multi [".c"])] []) "x" []).1 (by decide) (by decide)
  · exact (c4_amended_id_after_class_and_class_runs
      (Builder.mk [(Kind.«class», Value.multi [".c"])] []) "x" ["a", "b"]).2 (by decide)
      (Or.inl (by decide))
